import Mathlib

/-!
# Verification of the HEIG imaging-genetics toolkit

Shallow embedding of the parts of the HEIG repository
(`ldmatrix.py`, `parse.py`, `heri_gc.py`, `heig/sumstats.py`) that the
claims C1-C10 are about, with theorems settling each claim.

Machine floats in the source are modelled by exact rationals (`ℚ`);
square roots land in `ℝ` via `Real.sqrt`.  Fallible code is modelled with
`Except String` / `Bool` results.  Numpy sorts are modelled with
`List.insertionSort` (any correct sort has the same meaning).
-/

namespace HEIG

/-! ## `heig/sumstats.py`: GWAS summary-statistics QC -/

namespace SumStats

/-- Embedding of `np.nanmedian` on a list of (non-NaN) values: middle element of the
sorted list for odd length, average of the two middle elements for even
length.  (The empty list, `nan` in numpy, is given the junk value 0; all
claims use it on nonempty data.) -/
def nanmedian (data : List ℚ) : ℚ :=
  let s := data.insertionSort (· ≤ ·)
  let n := data.length
  if n % 2 = 1 then s.getD (n / 2) 0
  else (s.getD (n / 2 - 1) 0 + s.getD (n / 2) 0) / 2

/-- Embedding of `GWAS._check_median` (src/heig/sumstats.py lines 445-464), as the
predicate "the ValueError is raised".  The source line is
`if np.abs(median_beta - null_value > 0.1):` — Python evaluates the
comparison `median_beta - null_value > 0.1` first (it binds tighter than
the call), so `np.abs` is applied to a Boolean, giving 1 for True and 0
for False, and the `if` is truthy exactly when that comparison holds. -/
def check_median_raises (data : List ℚ) (null_value : ℚ) : Bool :=
  let median_beta := nanmedian data
  -- np.abs(median_beta - null_value > 0.1), then Python truthiness (≠ 0)
  |(if median_beta - null_value > 1/10 then (1 : ℚ) else 0)| ≠ 0

/-- The check the claim describes: raise exactly when the median of the
effect column is more than 0.1 away from the expected null value. -/
def check_median_claim_raises (data : List ℚ) (null_value : ℚ) : Bool :=
  |nanmedian data - null_value| > 1/10

/-- The map `GWAS.complement = \x7b'A': 'T', 'T': 'A', 'C': 'G', 'G': 'C'\x7d`
(src/heig/sumstats.py line 180, identical to `COMPLEMENT` in
src/heri_gc.py line 18), as a partial map on allele strings;
`none` models "key not in the dict". -/
def complement (a : String) : Option String :=
  if a = "A" then some "T"
  else if a = "T" then some "A"
  else if a = "C" then some "G"
  else if a = "G" then some "C"
  else none

/-- One entry of the `not_strand_ambiguous` list comprehension in
`GWAS._prune_snps` (src/heig/sumstats.py lines 367-374, identical logic in
src/heri_gc.py lines 130-135): the comprehension runs over
`zip(gwas['A2'], gwas['A1'])`, so the first argument is A2 and the second
is A1.  `true` means the variant is kept. -/
def not_strand_ambiguous (a2 a1 : String) : Bool :=
  a2.length = 1 && a1.length = 1 &&
  (complement a2).isSome && (complement a1).isSome &&
  complement a2 ≠ some a1

/-- The filter as the claim phrases it: both alleles are single characters
contained in the complement map and the complement of A1 differs from A2. -/
def kept_claim (a1 a2 : String) : Bool :=
  a1.length = 1 && a2.length = 1 &&
  (complement a1).isSome && (complement a2).isSome &&
  complement a1 ≠ some a2

end SumStats

/-! ## `ldmatrix.py`: the block-diagonal LD matrix engine -/

namespace LDmat

/-- One row of the `_ld_info.txt` table
(`CHR, SNP, CM, POS, A0, A1, N, block, block_idx`); only the columns the
verified operations read are carried (`CM, POS, A0, A1` are never used by
`merge` / `extract` / `truncate` / `estimate_ldscore`). -/
structure InfoRow where
  chr : ℤ
  snp : String
  n : ℤ
  block : ℤ
  block_idx : ℕ
deriving DecidableEq

/-- One entry of `self.data`: a raw block is the flat strict lower
triangle of a correlation block (1-D numpy array); a truncated block is a
dense square matrix (2-D numpy array), stored row-major. -/
inductive LDBlock where
  | tril (v : List ℚ)
  | dense (m : List (List ℚ))
deriving DecidableEq

/-- The 1-D payload of a raw block.  The `dense` case is unreachable in
the source paths that read it (`extract` and `truncate` are gated on the
matrix not being truncated, and non-truncated matrices store triangles). -/
def LDBlock.tril_data : LDBlock → List ℚ
  | .tril v => v
  | .dense _ => []

/-- The 2-D payload of a truncated block.  The `tril` case is unreachable
in the source path that reads it (`estimate_ldscore` is gated on the
matrix being truncated). -/
def LDBlock.dense_data : LDBlock → List (List ℚ)
  | .dense m => m
  | .tril _ => []

/-- The state of an `LDmatrix` instance. -/
structure LDM where
  ld_info : List InfoRow
  data : List LDBlock
  is_truncated : Bool
  block_sizes : List ℕ
  block_ranges : List (ℕ × ℕ)
deriving DecidableEq

/-- Running partial sums with accumulator (helper for `np.cumsum`). -/
def cumsum_from (acc : ℕ) : List ℕ → List ℕ
  | [] => []
  | x :: xs => (acc + x) :: cumsum_from (acc + x) xs

/-- Embedding of `np.cumsum` on a list of naturals. -/
def cumsum (l : List ℕ) : List ℕ := cumsum_from 0 l

/-- Entry `(i, j)` of the dense symmetric unit-diagonal matrix that
`LDmatrix._get_2d_matrix` (src/ldmatrix.py lines 40-52) rebuilds from the
flat strict-lower-triangle array `tril`: the source assigns `tril` to
`np.tril_indices(dim, k=-1)` (which enumerates the pairs `(i, j)`, `j < i`,
in row-major order, so pair `(i, j)` sits at flat offset
`i*(i-1)/2 + j`), adds the transpose, and fills the diagonal with 1. -/
def get_2d_matrix (tril : List ℚ) (i j : ℕ) : ℚ :=
  if i = j then 1
  else if j < i then tril.getD (i * (i - 1) / 2 + j) 0
  else tril.getD (j * (j - 1) / 2 + i) 0

/-- The full `dim × dim` dense matrix returned by `_get_2d_matrix`,
row-major. -/
def get_2d_dense (dim : ℕ) (tril : List ℚ) : List (List ℚ) :=
  (List.range dim).map (fun i => (List.range dim).map (fun j => get_2d_matrix tril i j))

/-- Embedding of `LDmatrix._extract_by_idxs` (src/ldmatrix.py lines 112-133):
`cum_sum = np.cumsum(range(size - 1))`;
`idx = [cum_sum[idxs[i] - 1] + idxs[:i] for i in range(1, len(idxs))]`
(a list of arrays, the scalar broadcast over the first `i` kept indices);
if that list is nonempty the arrays are concatenated and used to index
`data`, else the empty array is returned. -/
def extract_by_idxs (data : List ℚ) (size : ℕ) (idxs : List ℕ) : List ℚ :=
  let cum_sum := cumsum (List.range (size - 1))
  let idx := (List.range' 1 (idxs.length - 1)).map (fun i =>
    (idxs.take i).map (fun jv => cum_sum.getD (idxs.getD i 0 - 1) 0 + jv))
  if idx.length > 0 then idx.flatten.map (fun t => data.getD t 0) else []

/-- The flat strict lower triangle (excluding the diagonal) of the `k × k`
matrix with entries `M i j`, in `np.tril_indices(k, -1)` (row-major)
order.  Used to state what "the strict lower triangle of the dense
submatrix" is in claim C6. -/
def tril_flat (k : ℕ) (M : ℕ → ℕ → ℚ) : List ℚ :=
  ((List.range k).map (fun i => (List.range i).map (fun j => M i j))).flatten

/-- Helper for `_get_block_info`: the `(begin, end)` ranges accumulated
from a list of block sizes. -/
def ranges_from_sizes (start : ℕ) : List ℕ → List (ℕ × ℕ)
  | [] => []
  | s :: rest => (start, start + s) :: ranges_from_sizes (start + s) rest

/-- Embedding of `LDmatrix._get_block_info` (src/ldmatrix.py lines 28-37):
`pd.value_counts(ld_info['block']).sort_index()` is, for each distinct
block id in ascending order, the number of rows carrying it; the ranges
are its running partial sums. -/
def get_block_info (ld_info : List InfoRow) : List ℕ × List (ℕ × ℕ) :=
  let ids := ((ld_info.map (·.block)).dedup).insertionSort (· ≤ ·)
  let block_sizes := ids.map (fun b => (ld_info.filter (·.block = b)).length)
  (block_sizes, ranges_from_sizes 0 block_sizes)

/-- The loop body of `LDmatrix.merge` (src/ldmatrix.py lines 69-79) over
the already-loaded incoming matrices (each an `(ld_info, data)` pair).
Line 71 raises the ordering ValueError when the first chromosome of the
incoming matrix is `>=` the last chromosome of the current one.  When that
check passes, the source runs `self.data.extend(ld_i.data)` and then line
74 evaluates `self.ld_info[self.ld_info.index[-1], 'block']`, which
indexes the DataFrame with a tuple key and raises `KeyError` (the columns
are a plain index), so no loop iteration ever completes. -/
def merge_loop (self : LDM) : List (List InfoRow × List LDBlock) → Except String LDM
  | [] => .ok self
  | (info_i, _data_i) :: _rest =>
    if ((info_i.head?.map (·.chr)).getD 0) ≥
        ((self.ld_info.getLast?.map (·.chr)).getD 0) then
      .error "Can only merge LD matrices in order (chr1, chr2, ...)"
    else
      .error "KeyError: (ld_info.index[-1], block)"

/-- Embedding of `LDmatrix.merge` (src/ldmatrix.py lines 55-79). -/
def merge (self : LDM) (ld_files : List (List InfoRow × List LDBlock)) :
    Except String LDM :=
  if self.is_truncated then .error "The LD matrix has been truncated"
  else if ld_files.length = 0 then .error "There is nothing in the ld list"
  else merge_loop self ld_files

/-- Embedding of `LDmatrix.extract` (src/ldmatrix.py lines 82-109).  `block_idxs k`
models `block_dict[k]` (the retained `block_idx` values of block `k`, in
row order); a data slot is kept exactly when its index is a key of
`block_dict`; the new `block_idx` column is the positional assignment of
`[i for _, v in groupby('block') for i in range(len(v))]` (the rows of
`ld_info` are grouped by ascending block id, the invariant the loader
enforces). -/
def extract (self : LDM) (snps : List String) : Except String LDM :=
  if self.is_truncated then .error "The LD matrix has been truncated"
  else
    let info2 := self.ld_info.filter (fun row => row.snp ∈ snps)
    let block_idxs := fun (k : ℤ) => (info2.filter (·.block = k)).map (·.block_idx)
    let keep_list := (List.range self.data.length).filter
      (fun (i : ℕ) => !(block_idxs (i : ℤ)).isEmpty)
    let data2 := keep_list.map (fun (i : ℕ) =>
      LDBlock.tril (extract_by_idxs (self.data.getD i (.tril [])).tril_data
        (self.block_sizes.getD i 0) (block_idxs (i : ℤ))))
    let ids := ((info2.map (·.block)).dedup).insertionSort (· ≤ ·)
    let new_idx := ids.flatMap (fun k => List.range (info2.filter (·.block = k)).length)
    let info3 := (info2.zip new_idx).map (fun p => { p.1 with block_idx := p.2 })
    let bi := get_block_info info3
    .ok { ld_info := info3, data := data2, is_truncated := self.is_truncated,
          block_sizes := bi.1, block_ranges := bi.2 }

/-- Embedding of `LDmatrix.truncate` (src/ldmatrix.py lines 136-174).  The `prop ≠ 1`
branch runs `np.linalg.eigh` and rebuilds each block from the eigenpairs
kept by the cumulative-variance rule — a floating-point eigendecomposition
with no exact counterpart, modelled by the parameter `eig_reduce`
(given `inv` and the dense block, it returns the reduced reconstruction).
Both branches replace `data` with dense blocks and set the flag. -/
def truncate (eig_reduce : Bool → List (List ℚ) → List (List ℚ))
    (self : LDM) (prop : ℚ) (inv : Bool) : Except String LDM :=
  if self.is_truncated then .error "The LD matrix has been truncated"
  else
    let ld_bd :=
      if prop = 1 then
        (List.range self.data.length).map (fun i =>
          get_2d_dense (self.block_sizes.getD i 0) (self.data.getD i (.tril [])).tril_data)
      else
        (List.range self.data.length).map (fun i =>
          eig_reduce inv
            (get_2d_dense (self.block_sizes.getD i 0) (self.data.getD i (.tril [])).tril_data))
    .ok { self with data := ld_bd.map LDBlock.dense, is_truncated := true }

/-- Embedding of `np.sum(block ** 2, axis=0)`: the column sums of squares of a dense
(square) block stored row-major. -/
def col_sq_sums (block : List (List ℚ)) : List ℚ :=
  (List.range (block.headD []).length).map
    (fun j => (block.map (fun row => (row.getD j 0) ^ 2)).sum)

/-- The loop body of `LDmatrix._merge_blocks` (src/ldmatrix.py lines
219-240), structurally recursive over the remaining block sizes with the
running index `i`, current accumulated size and current group.  The
emitted groups are produced in order. -/
def merge_blocks_go (mean_size : ℚ) (n_blocks : ℕ) :
    ℕ → ℕ → List ℕ → List ℕ → List (List ℕ)
  | _, _, _, [] => []
  | i, cur_size, cur_group, block_size :: rest =>
    if i < n_blocks - 1 then
      if ((cur_size + block_size : ℕ) : ℚ) ≤ mean_size ∨
          ((cur_size + block_size / 2 : ℕ) : ℚ) ≤ mean_size then
        merge_blocks_go mean_size n_blocks (i + 1) (cur_size + block_size)
          (cur_group ++ [i]) rest
      else
        cur_group :: merge_blocks_go mean_size n_blocks (i + 1) block_size [i] rest
    else
      if ((cur_size + block_size : ℕ) : ℚ) ≤ mean_size ∨
          ((cur_size + block_size / 2 : ℕ) : ℚ) ≤ mean_size then
        [cur_group ++ [i]]
      else
        [[i]]

/-- Embedding of `LDmatrix._merge_blocks` (src/ldmatrix.py lines 206-240):
`mean_size = sum(block_sizes) / 200`; blocks are greedily accumulated
into the current group while
`cur_size + block_size <= mean_size or cur_size + block_size // 2 <= mean_size`
(`//` is integer floor division), a failing non-final block emits the
current group and starts a new one, and the final block either joins and
emits the current group or is emitted alone. -/
def merge_blocks (block_sizes : List ℕ) : List (List ℕ) :=
  let n_blocks := block_sizes.length
  let mean_size : ℚ := (block_sizes.sum : ℚ) / 200
  merge_blocks_go mean_size n_blocks 0 0 [] block_sizes

/-- Embedding of `LDmatrix.estimate_ldscore` (src/ldmatrix.py lines 183-203).
`n_samples` is the whole `N` column but the source indexes it with the
*block* counter `i`; the per-block slices `ldscore[begin:end]` are written
in order over consecutive ranges, i.e. concatenated. -/
def estimate_ldscore (self : LDM) : Except String (List ℚ × List (List ℕ)) :=
  if !self.is_truncated then
    .error "Truncate the LD matrix first then estimate LD scores"
  else
    let n_samples := self.ld_info.map (·.n)
    let ldscore := ((List.range self.block_ranges.length).map (fun i =>
      let raw_ld := col_sq_sums (self.data.getD i (.dense [])).dense_data
      raw_ld.map (fun r => r - (1 - r) / ((n_samples.getD i 0 : ℚ) - 2)))).flatten
    .ok (ldscore, merge_blocks self.block_sizes)

end LDmat

/-! ## `heri_gc.py`: heritability / genetic-correlation estimation -/

namespace HeriGC

/-- The clipped pre-square-root vector of `Estimation._get_heri_se`
(src/heri_gc.py lines 464-485): `part1 = 2*d/n**2` (scalar),
`part2 = 2*heri/n`, `part3 = 2*heri*(1-heri)/n` (elementwise),
`res = part1 + part2 + part3`, then entries with `|res| < 10**-10`
are replaced by 0. -/
def get_heri_se_res (heri : List ℚ) (d n : ℚ) : List ℚ :=
  let part1 := 2 * d / n ^ 2
  let part2 := heri.map (fun h => 2 * h / n)
  let part3 := heri.map (fun h => 2 * h * (1 - h) / n)
  let res := (part2.zip part3).map (fun p => part1 + p.1 + p.2)
  res.map (fun x => if |x| < 1 / 10 ^ 10 then 0 else x)

/-- Embedding of `Estimation._get_heri_se`: `np.sqrt` of the clipped vector. -/
noncomputable def get_heri_se (heri : List ℚ) (d n : ℚ) : List ℝ :=
  (get_heri_se_res heri d n).map (fun x : ℚ => Real.sqrt (x : ℝ))

/-- The claim's elementwise closed form:
`sqrt(2d/n² + 2h/n + 2h(1−h)/n)`, with the sum replaced by 0 when its
absolute value is below `1e-10`. -/
noncomputable def heri_se_claim (h d n : ℚ) : ℝ :=
  Real.sqrt (((if |2 * d / n ^ 2 + 2 * h / n + 2 * h * (1 - h) / n| < 1 / 10 ^ 10
    then (0 : ℚ)
    else 2 * d / n ^ 2 + 2 * h / n + 2 * h * (1 - h) / n) : ℚ) : ℝ)

/-- Embedding of `TwoSample._lobo_estimate` (src/heri_gc.py lines 661-670), scalar
(single-component) instance of the numpy broadcast: for each merged group,
start from a copy of the total estimate and subtract the block estimate of
every block in the group. -/
def lobo_estimate (total_est : ℚ) (block_est : List ℚ)
    (merged_blocks : List (List ℕ)) : List ℚ :=
  merged_blocks.map (fun blocks =>
    blocks.foldl (fun acc ii => acc - block_est.getD ii 0) total_est)

/-- The `estimate` component of `TwoSample._jackknife`
(src/heri_gc.py lines 636-658), scalar instance:
`n_blocks * total - (n_blocks - 1) * mean_lobo`, where
`mean_lobo = np.mean(lobo)` is written out as `sum / length`. -/
def jackknife_estimate (total : ℚ) (lobo : List ℚ) (n_blocks : ℕ) : ℚ :=
  (n_blocks : ℚ) * total - ((n_blocks : ℚ) - 1) * (lobo.sum / (lobo.length : ℚ))

/-- The argument of the square root in the `se` component of
`TwoSample._jackknife`: `(n_blocks - 1) / n_blocks * Σ (lobo - mean_lobo)²`. -/
def jackknife_var (lobo : List ℚ) (n_blocks : ℕ) : ℚ :=
  ((n_blocks : ℚ) - 1) / (n_blocks : ℚ) *
    ((lobo.map (fun l => (l - lobo.sum / (lobo.length : ℚ)) ^ 2)).sum)

/-- Embedding of `TwoSample._jackknife`, scalar instance: the `(estimate, se)` pair. -/
noncomputable def jackknife (total : ℚ) (lobo : List ℚ) (n_blocks : ℕ) : ℚ × ℝ :=
  (jackknife_estimate total lobo n_blocks,
   Real.sqrt ((jackknife_var lobo n_blocks : ℚ) : ℝ))

end HeriGC

/-! ## `parse.py`: the PLINK `.bed` decoder -/

namespace Parse

/-- A genotype value: dosage 0, 1, 2, or missing (which the decoder emits
as numpy not-a-number and the encoder receives as `np.nan`). -/
inductive Geno where
  | g0
  | g1
  | g2
  | miss
deriving DecidableEq

/-- The table `PlinkBEDFile._bedcode` (src/parse.py lines 74-79) read as an encoder:
`2 → '11'`, `missing → '10'`, `1 → '01'`, `0 → '00'` (bits in file order). -/
def bedcode_enc : Geno → List Bool
  | .g2 => [true, true]
  | .miss => [true, false]
  | .g1 => [false, true]
  | .g0 => [false, false]

/-- The table `_bedcode` read as the decoder used by `bitarray.decode`: each
consecutive bit pair is matched against the four codes. -/
def bedcode_dec (b1 b2 : Bool) : Geno :=
  match b1, b2 with
  | true, true => .g2
  | true, false => .miss
  | false, true => .g1
  | false, false => .g0

/-- Embedding of `slice.decode(self._bedcode)`: decode a bit list two bits at a time
(a trailing odd bit is impossible for the slices the source decodes). -/
def decode_pairs : List Bool → List Geno
  | b1 :: b2 :: rest => bedcode_dec b1 b2 :: decode_pairs rest
  | _ => []

/-- The 16 magic bits `bitarray('0011011011011000')` checked at
src/parse.py line 97 (little-endian bits of the two magic bytes). -/
def magic_bits : List Bool :=
  [false, false, true, true, false, true, true, false,
   true, true, false, true, true, false, false, false]

/-- The 8 mode bits `bitarray('10000000')` (SNP-major) checked at
src/parse.py line 100. -/
def mode_bits : List Bool :=
  [true, false, false, false, false, false, false, false]

/-- The state of a `PlinkBEDFile` after `__read__`: SNP count `m`, sample
count `n`, padded row length `nru`, the genotype bit payload, and the
sequential-read cursor `_currentSNP`. -/
structure BedState where
  m : ℕ
  n : ℕ
  nru : ℕ
  geno : List Bool
  currentSNP : ℕ
deriving DecidableEq

/-- Embedding of `PlinkBEDFile.__read__` (src/parse.py lines 83-107) over the file's
bit content (little-endian bit order, as `bitarray(endian='little')`
reads it): the first 16 bits must be the magic number, the next 8 the
SNP-major mode byte, `e = (4 - n % 4) if n % 4 != 0 else 0`, `nru = n + e`,
and the remaining payload must hold exactly `2*m*nru` bits
(`__test_length__`, lines 109-113). -/
def bed_read (bits : List Bool) (m n : ℕ) : Except String BedState :=
  let magicNumber := bits.take 16
  let bedMode := (bits.drop 16).take 8
  let e := if n % 4 ≠ 0 then 4 - n % 4 else 0
  let nru := n + e
  if magicNumber ≠ magic_bits then
    .error "Magic number from PLINK .bed file not recognized"
  else if bedMode ≠ mode_bits then
    .error "Plink .bed file must be in default SNP-major mode"
  else
    let geno := bits.drop 24
    if geno.length ≠ 2 * m * nru then
      .error "Plink .bed file has wrong bit length"
    else
      .ok { m := m, n := n, nru := nru, geno := geno, currentSNP := 0 }

/-- One iteration payload of `nextSNPs` (src/parse.py lines 126-128):
`slice = geno[2*c*nru : 2*(c+1)*nru]` (a slice of length `2*nru`),
decoded and truncated to the first `n` genotypes (`X[0:self.n]`). -/
def decode_snp (st : BedState) (c : ℕ) : List Geno :=
  let slice := (st.geno.drop (2 * c * st.nru)).take (2 * st.nru)
  (decode_pairs slice).take st.n

/-- Embedding of `PlinkBEDFile.nextSNPs` (src/parse.py lines 115-132), with the decoded
`n × num` matrix represented as its list of columns (column `i` is the
genotype vector of the `i`-th SNP read, exactly how the source fills
`snps[:, i]`).  Each iteration first checks `_currentSNP + 1 > m`
("No more SNPs remaining"), then decodes and advances the cursor. -/
def next_snps (st : BedState) : ℕ → Except String (List (List Geno) × BedState)
  | 0 => .ok ([], st)
  | num + 1 =>
    if st.currentSNP + 1 > st.m then .error "No more SNPs remaining"
    else
      let col := decode_snp st st.currentSNP
      match next_snps { st with currentSNP := st.currentSNP + 1 } num with
      | .ok (cols, st2) => .ok (col :: cols, st2)
      | .error e => .error e

/-- The packed bits of one SNP's column of `n` genotypes: the 2-bit codes
of the genotypes, padded to `nru` samples with homozygous-0 (`00`) bits,
as PLINK writers pad. -/
def snp_bits (nru n : ℕ) (col : List Geno) : List Bool :=
  (col ++ List.replicate (nru - n) Geno.g0).flatMap bedcode_enc

/-- The encoder claim C5 describes (the spec's round-trip property):
given the genotype matrix as a list of per-SNP columns of length `n`, emit
the 3-byte magic/SNP-major header and, per SNP, the 2-bit codes of its `n`
genotypes padded to `nru = n + ((4 - n % 4) % 4)` samples. -/
def encode_bed (cols : List (List Geno)) (n : ℕ) : List Bool :=
  let e := if n % 4 ≠ 0 then 4 - n % 4 else 0
  let nru := n + e
  magic_bits ++ mode_bits ++ cols.flatMap (snp_bits nru n)

end Parse

end HEIG

/-! ## Theorems -/

namespace HEIG

namespace SumStats

theorem complement_symm (a b : String) :
    complement a = some b ↔ complement b = some a := by
  unfold complement
  split_ifs <;> simp_all [eq_comm]

theorem kept_iff_claim (a1 a2 : String) :
    not_strand_ambiguous a2 a1 = kept_claim a1 a2 := by
  rw [Bool.eq_iff_iff]
  unfold not_strand_ambiguous kept_claim
  simp only [Bool.and_eq_true, decide_eq_true_eq]
  have h := complement_symm a2 a1
  tauto

end SumStats

/-- C2: the effect-column median sanity check does not raise on a median far
below the null value.  With effect data `[-5, -5, -5]` (median `-5`) and null
value 0, `GWAS._check_median` passes, although the claim requires an
invalid-input error whenever `|median − null| > 0.1`: the source line
`if np.abs(median_beta - null_value > 0.1)` applies `np.abs` to the already
evaluated one-sided comparison, so medians far below the null slip through. -/
theorem C2_median_check_misses_low_median :
    SumStats.check_median_raises [-5, -5, -5] 0 = false ∧
    SumStats.check_median_claim_raises [-5, -5, -5] 0 = true := by
  constructor <;>
    norm_num [SumStats.check_median_raises, SumStats.check_median_claim_raises,
      SumStats.nanmedian, List.insertionSort, List.orderedInsert]

/-- C8: in the pruning step a variant is kept iff both alleles are single
characters of the complement map `{A↔T, C↔G}` and the complement of A1 differs
from A2 (first conjunct, for all allele strings); consequently the palindromic
pairs A/T, T/A, C/G, G/C are dropped, the pairs A/C, C/A, A/G, G/A, T/C, C/T,
T/G, G/T are kept, and multi-character (indel) alleles are dropped.
(`not_strand_ambiguous` takes A2 first, as the source comprehension does.) -/
theorem C8_strand_ambiguity_filter :
    (∀ a1 a2 : String,
      SumStats.not_strand_ambiguous a2 a1 = SumStats.kept_claim a1 a2) ∧
    (SumStats.not_strand_ambiguous "T" "A" = false ∧
     SumStats.not_strand_ambiguous "A" "T" = false ∧
     SumStats.not_strand_ambiguous "G" "C" = false ∧
     SumStats.not_strand_ambiguous "C" "G" = false) ∧
    (SumStats.not_strand_ambiguous "C" "A" = true ∧
     SumStats.not_strand_ambiguous "A" "C" = true ∧
     SumStats.not_strand_ambiguous "G" "A" = true ∧
     SumStats.not_strand_ambiguous "A" "G" = true ∧
     SumStats.not_strand_ambiguous "C" "T" = true ∧
     SumStats.not_strand_ambiguous "T" "C" = true ∧
     SumStats.not_strand_ambiguous "G" "T" = true ∧
     SumStats.not_strand_ambiguous "T" "G" = true) ∧
    (SumStats.not_strand_ambiguous "T" "AC" = false ∧
     SumStats.not_strand_ambiguous "AAT" "G" = false) :=
  ⟨SumStats.kept_iff_claim, by decide, by decide, by decide⟩

/-- C1: `LDmatrix.merge` raises the ordering ValueError precisely on correctly
ordered input.  With the current matrix on chromosome 1 and an incoming matrix
starting at chromosome 2 — the claim's success case — line 71's test
`incoming_first_chr >= current_last_chr` fires and `merge` raises
"Can only merge LD matrices in order (chr1, chr2, ...)". -/
theorem C1_merge_raises_on_correct_order :
    LDmat.merge
      { ld_info := [⟨1, "rs1", 100, 0, 0⟩], data := [.tril []],
        is_truncated := false, block_sizes := [1], block_ranges := [(0, 1)] }
      [([⟨2, "rs2", 100, 0, 0⟩], [.tril []])]
      = .error "Can only merge LD matrices in order (chr1, chr2, ...)" ∧
    (2 : ℤ) > 1 :=
  ⟨rfl, by decide⟩

/-- C4: the block-merge plan of `_merge_blocks` is not a partition of the block
indices.  With block sizes `[1, 1000]` the mean group size is `1001/200`;
block 0 is greedily accumulated, the final block 1 fails both greedy tests, and
the `else` branch of the final iteration emits `[1]` alone, silently discarding
the accumulated group `[0]`: the returned plan is `[[1]]` and block 0 appears
in no emitted group. -/
theorem C4_merge_blocks_drops_block :
    LDmat.merge_blocks [1, 1000] = [[1]] ∧
    ∀ g ∈ LDmat.merge_blocks [1, 1000], 0 ∉ g := by
  have h : LDmat.merge_blocks [1, 1000] = [[1]] := by
    norm_num [LDmat.merge_blocks, LDmat.merge_blocks_go]
  rw [h]
  exact ⟨rfl, by decide⟩

theorem get_heri_se_res_map (heri : List ℚ) (d n : ℚ) :
    HeriGC.get_heri_se_res heri d n
      = heri.map (fun h =>
          if |2 * d / n ^ 2 + 2 * h / n + 2 * h * (1 - h) / n| < 1 / 10 ^ 10 then 0
          else 2 * d / n ^ 2 + 2 * h / n + 2 * h * (1 - h) / n) := by
  induction heri with
  | nil => rfl
  | cons h t ih =>
    rw [List.map_cons, ← ih]
    rfl

/-- C9: `Estimation._get_heri_se` returns, elementwise in the heritability
vector, `sqrt(2d/n² + 2h/n + 2h(1−h)/n)`, where a sum of absolute value below
`1e-10` is replaced by 0 before the square root. -/
theorem C9_heri_se_formula (heri : List ℚ) (d n : ℚ) :
    HeriGC.get_heri_se heri d n
      = heri.map (fun h => HeriGC.heri_se_claim h d n) := by
  unfold HeriGC.get_heri_se
  rw [get_heri_se_res_map, List.map_map]
  rfl

theorem foldl_sub_eq (f : ℕ → ℚ) (l : List ℕ) (acc : ℚ) :
    l.foldl (fun a ii => a - f ii) acc = acc - (l.map f).sum := by
  induction l generalizing acc with
  | nil => simp
  | cons x xs ih => simp [ih, sub_sub]

/-- C3 counterexample: with total estimate 1, two merged groups `[[0], [1]]`
and block-level estimates `[1/2, 1/2]` (each merged block contributes
total/k = 1/2), composing `_lobo_estimate` with `_jackknife` returns the
estimate `3/2`, not the total `1` the claim requires. -/
theorem C3_jackknife_estimate_biased :
    (HeriGC.jackknife 1 (HeriGC.lobo_estimate 1 [1/2, 1/2] [[0], [1]]) 2).1 = 3/2 ∧
    ((3 : ℚ)/2) ≠ 1 := by
  constructor
  · show HeriGC.jackknife_estimate 1 (HeriGC.lobo_estimate 1 [1/2, 1/2] [[0], [1]]) 2
        = 3/2
    norm_num [HeriGC.jackknife_estimate, HeriGC.lobo_estimate, List.getD]
  · norm_num

/-- C3 amended: when every merged block contributes block-level estimates
summing to total/k (k = number of merged blocks, k ≥ 1), composing
`_lobo_estimate` with `_jackknife` returns `se = 0` as claimed, but the
estimate is `(2k−1)/k · total` — which equals the total only when the total is
0 or k = 1, so "estimate ≈ total" fails in general. -/
theorem C3_jackknife_on_equal_blocks (total : ℚ) (block_est : List ℚ)
    (merged_blocks : List (List ℕ)) (k : ℕ)
    (hk : k = merged_blocks.length) (hk1 : 1 ≤ k)
    (hsum : ∀ blocks ∈ merged_blocks,
      (blocks.map (fun ii => block_est.getD ii 0)).sum = total / k) :
    HeriGC.jackknife total (HeriGC.lobo_estimate total block_est merged_blocks) k
      = ((2 * (k : ℚ) - 1) / (k : ℚ) * total, (0 : ℝ)) := by
  subst hk
  have hkQ : ((merged_blocks.length : ℚ)) ≠ 0 := by
    have h0 : (0 : ℕ) < merged_blocks.length := hk1
    exact_mod_cast h0.ne'
  have hlobo : HeriGC.lobo_estimate total block_est merged_blocks
      = List.replicate merged_blocks.length
          (total - total / (merged_blocks.length : ℚ)) := by
    unfold HeriGC.lobo_estimate
    rw [List.map_congr_left
      (g := fun _ => total - total / (merged_blocks.length : ℚ))
      (fun b hb => by rw [foldl_sub_eq, hsum b hb])]
    exact List.map_const' _ _
  have hmean : (List.replicate merged_blocks.length
        (total - total / (merged_blocks.length : ℚ))).sum
      / ((List.replicate merged_blocks.length
        (total - total / (merged_blocks.length : ℚ))).length : ℚ)
      = total - total / (merged_blocks.length : ℚ) := by
    rw [List.sum_replicate, List.length_replicate, nsmul_eq_mul,
      mul_div_cancel_left₀ _ hkQ]
  have hest : HeriGC.jackknife_estimate total
      (HeriGC.lobo_estimate total block_est merged_blocks) merged_blocks.length
      = (2 * (merged_blocks.length : ℚ) - 1) / (merged_blocks.length : ℚ) * total := by
    unfold HeriGC.jackknife_estimate
    rw [hlobo, hmean]
    field_simp
    ring
  have hvar : HeriGC.jackknife_var
      (HeriGC.lobo_estimate total block_est merged_blocks) merged_blocks.length
      = 0 := by
    unfold HeriGC.jackknife_var
    rw [hlobo, hmean, List.map_replicate]
    simp
  rw [Prod.ext_iff]
  refine ⟨hest, ?_⟩
  show Real.sqrt ((HeriGC.jackknife_var
      (HeriGC.lobo_estimate total block_est merged_blocks)
      merged_blocks.length : ℚ) : ℝ) = 0
  rw [hvar]
  simp

/-- Witness for `C3_jackknife_on_equal_blocks` at total 1, block estimates
`[1/2, 1/2]`, merged groups `[[0], [1]]`, k = 2. -/
theorem C3_jackknife_on_equal_blocks_witness :
    HeriGC.jackknife 1 (HeriGC.lobo_estimate 1 [1/2, 1/2] [[0], [1]]) 2
      = ((2 * ((2 : ℕ) : ℚ) - 1) / ((2 : ℕ) : ℚ) * 1, (0 : ℝ)) :=
  C3_jackknife_on_equal_blocks 1 [1/2, 1/2] [[0], [1]] 2 rfl (by norm_num)
    (by intro b hb; fin_cases hb <;> norm_num)

namespace Parse

theorem decode_pairs_flatMap_enc (l : List Geno) :
    decode_pairs (l.flatMap bedcode_enc) = l := by
  induction l with
  | nil => rfl
  | cons g t ih =>
    rw [List.flatMap_cons]
    cases g <;>
      (show _ :: decode_pairs (t.flatMap bedcode_enc) = _ :: t
       rw [ih])
    all_goals rfl

theorem flatMap_enc_length (l : List Geno) :
    (l.flatMap bedcode_enc).length = 2 * l.length := by
  induction l with
  | nil => rfl
  | cons g t ih => cases g <;> (simp [bedcode_enc, ih]; omega)

theorem snp_bits_length (nru n : ℕ) (hn : n ≤ nru) (col : List Geno)
    (hcol : col.length = n) : (snp_bits nru n col).length = 2 * nru := by
  unfold snp_bits
  rw [flatMap_enc_length, List.length_append, hcol, List.length_replicate]
  omega

theorem flatMap_snp_bits_length (nru n : ℕ) (hn : n ≤ nru) :
    ∀ (cols : List (List Geno)), (∀ c ∈ cols, c.length = n) →
    (cols.flatMap (snp_bits nru n)).length = 2 * cols.length * nru := by
  intro cols hcols
  induction cols with
  | nil => simp
  | cons col t ih =>
    rw [List.flatMap_cons, List.length_append,
      snp_bits_length nru n hn col (hcols col (by simp)),
      ih (fun c hc => hcols c (by simp [hc])), List.length_cons]
    ring

theorem bed_read_header (payload : List Bool) (m n : ℕ)
    (hlen : payload.length = 2 * m * (n + (if n % 4 ≠ 0 then 4 - n % 4 else 0))) :
    bed_read (magic_bits ++ mode_bits ++ payload) m n
      = Except.ok
          { m := m, n := n,
            nru := n + (if n % 4 ≠ 0 then 4 - n % 4 else 0),
            geno := payload, currentSNP := 0 } := by
  have h1 : (magic_bits ++ mode_bits ++ payload).take 16 = magic_bits := by
    rw [List.append_assoc]
    exact List.take_left' rfl
  have h2 : ((magic_bits ++ mode_bits ++ payload).drop 16).take 8 = mode_bits := by
    rw [List.append_assoc]
    have hd : (magic_bits ++ (mode_bits ++ payload)).drop 16 = mode_bits ++ payload :=
      List.drop_left' rfl
    rw [hd]
    exact List.take_left' rfl
  have h3 : (magic_bits ++ mode_bits ++ payload).drop 24 = payload :=
    List.drop_left' rfl
  simp only [bed_read, h1, h2, h3, hlen]
  simp

theorem decode_range' (st : BedState) (n nru : ℕ) (hn : n ≤ nru)
    (hstn : st.n = n) (hstnru : st.nru = nru) :
    ∀ (cols : List (List Geno)) (c0 : ℕ) (front rest : List Bool),
      st.geno = front ++ cols.flatMap (snp_bits nru n) ++ rest →
      front.length = 2 * c0 * nru →
      (∀ c ∈ cols, c.length = n) →
      (List.range' c0 cols.length).map (fun c => decode_snp st c) = cols := by
  intro cols
  induction cols with
  | nil => intro c0 front rest _ _ _; simp
  | cons col t ih =>
    intro c0 front rest hgeno hfront hcols
    rw [List.length_cons, List.range'_succ, List.map_cons]
    have hcol : col.length = n := hcols col (by simp)
    congr 1
    · show (decode_pairs ((st.geno.drop (2 * c0 * st.nru)).take (2 * st.nru))).take st.n
        = col
      rw [hstn, hstnru, hgeno, List.flatMap_cons, List.append_assoc,
        List.append_assoc, List.drop_left' hfront,
        List.take_left' (snp_bits_length nru n hn col hcol)]
      unfold snp_bits
      rw [decode_pairs_flatMap_enc, List.take_left' hcol]
    · exact ih (c0 + 1) (front ++ snp_bits nru n col) rest
        (by rw [hgeno, List.flatMap_cons]; simp [List.append_assoc])
        (by rw [List.length_append, hfront,
              snp_bits_length nru n hn col hcol]; ring)
        (fun c hc => hcols c (by simp [hc]))

theorem next_snps_eq_ok (num : ℕ) :
    ∀ (st : BedState), st.currentSNP + num ≤ st.m →
    next_snps st num
      = Except.ok ((List.range' st.currentSNP num).map (fun c => decode_snp st c),
          { st with currentSNP := st.currentSNP + num }) := by
  induction num with
  | zero => intro st _; simp [next_snps]
  | succ k ih =>
    intro st h
    have hlt : ¬ st.currentSNP + 1 > st.m := by omega
    rw [next_snps, if_neg hlt,
      ih { st with currentSNP := st.currentSNP + 1 } (by simp; omega)]
    have harith : st.currentSNP + 1 + k = st.currentSNP + (k + 1) := by omega
    simp only [harith, List.range'_succ, List.map_cons]
    rfl

end Parse

/-- C5: PLINK BED round-trip.  For every genotype matrix (a list of `m`
per-SNP columns, each of `n` genotype values in {0, 1, 2, missing}),
packing it in the 2-bit SNP-major format with the correct magic/mode
header and per-SNP padding to `nru` samples, reading it back with
`PlinkBEDFile.__read__`, and decoding all `m` SNPs with `nextSNPs(m)`,
reproduces the original matrix exactly (missing decoded as the `10` code,
emitted as not-a-number by the source). -/
theorem C5_bed_round_trip (cols : List (List Parse.Geno)) (m n : ℕ)
    (hm : cols.length = m) (hcols : ∀ c ∈ cols, c.length = n) :
    (Parse.bed_read (Parse.encode_bed cols n) m n).bind
      (fun st => (Parse.next_snps st m).map Prod.fst) = Except.ok cols := by
  subst hm
  have hn : n ≤ n + (if n % 4 ≠ 0 then 4 - n % 4 else 0) := Nat.le_add_right _ _
  have hread : Parse.bed_read (Parse.encode_bed cols n) cols.length n
      = Except.ok
          { m := cols.length, n := n,
            nru := n + (if n % 4 ≠ 0 then 4 - n % 4 else 0),
            geno := cols.flatMap
              (Parse.snp_bits (n + (if n % 4 ≠ 0 then 4 - n % 4 else 0)) n),
            currentSNP := 0 } := by
    show Parse.bed_read (Parse.magic_bits ++ Parse.mode_bits ++ _) _ _ = _
    exact Parse.bed_read_header _ _ _
      (Parse.flatMap_snp_bits_length _ n hn cols hcols)
  rw [hread]
  show Except.map Prod.fst (Parse.next_snps _ cols.length) = Except.ok cols
  rw [Parse.next_snps_eq_ok cols.length _ (by simp),
    Parse.decode_range' _ n (n + (if n % 4 ≠ 0 then 4 - n % 4 else 0)) hn rfl rfl
      cols 0 [] [] (by simp) (by simp) hcols]
  rfl

/-- Witness for `C5_bed_round_trip`: a 2 × 2 genotype matrix covering all
four genotype values. -/
theorem C5_bed_round_trip_witness :
    (Parse.bed_read
        (Parse.encode_bed [[Parse.Geno.g0, Parse.Geno.g1],
                           [Parse.Geno.g2, Parse.Geno.miss]] 2) 2 2).bind
      (fun st => (Parse.next_snps st 2).map Prod.fst)
      = Except.ok [[Parse.Geno.g0, Parse.Geno.g1],
                   [Parse.Geno.g2, Parse.Geno.miss]] :=
  C5_bed_round_trip [[Parse.Geno.g0, Parse.Geno.g1],
                     [Parse.Geno.g2, Parse.Geno.miss]] 2 2 rfl
    (by intro c hc; fin_cases hc <;> rfl)

/-- C10: sequential `nextSNPs` calls compose.  For every valid BED file
(one accepted by `__read__`) and every `a`, `b` with `a + b` at most the
number of SNPs past the cursor, `nextSNPs(a)` followed by `nextSNPs(b)`
returns matrices whose horizontal concatenation (of per-SNP columns) is
the result of a single `nextSNPs(a+b)` call, and each call advances the
cursor by exactly the number of SNPs requested. -/
theorem C10_next_snps_composes (bits : List Bool) (m n a b : ℕ)
    (st : Parse.BedState) (_hread : Parse.bed_read bits m n = Except.ok st)
    (hab : st.currentSNP + a + b ≤ st.m) :
    ∃ cols1 cols2 stA stB,
      Parse.next_snps st a = Except.ok (cols1, stA) ∧
      Parse.next_snps stA b = Except.ok (cols2, stB) ∧
      Parse.next_snps st (a + b) = Except.ok (cols1 ++ cols2, stB) ∧
      stA.currentSNP = st.currentSNP + a ∧
      stB.currentSNP = st.currentSNP + a + b := by
  refine ⟨(List.range' st.currentSNP a).map (fun c => Parse.decode_snp st c),
    (List.range' (st.currentSNP + a) b).map (fun c => Parse.decode_snp st c),
    { st with currentSNP := st.currentSNP + a },
    { st with currentSNP := st.currentSNP + a + b },
    Parse.next_snps_eq_ok a st (by omega), ?_, ?_, rfl, rfl⟩
  · rw [Parse.next_snps_eq_ok b { st with currentSNP := st.currentSNP + a }
      (by simp; omega)]
    rfl
  · rw [Parse.next_snps_eq_ok (a + b) st (by omega)]
    have hr : List.range' st.currentSNP (a + b)
        = List.range' st.currentSNP a ++ List.range' (st.currentSNP + a) b := by
      rw [Nat.add_comm a b, ← List.range'_append]
      simp
    have harith : st.currentSNP + (a + b) = st.currentSNP + a + b := by omega
    rw [hr, List.map_append, harith]

/-- Witness for `C10_next_snps_composes`: a 3-SNP, 1-sample file, read as
one SNP and then two SNPs. -/
theorem C10_next_snps_composes_witness :
    ∃ cols1 cols2 stA stB,
      Parse.next_snps
        { m := 3, n := 1, nru := 4,
          geno := (Parse.encode_bed
            [[Parse.Geno.g0], [Parse.Geno.g1], [Parse.Geno.g2]] 1).drop 24,
          currentSNP := 0 } 1 = Except.ok (cols1, stA) ∧
      Parse.next_snps stA 2 = Except.ok (cols2, stB) ∧
      Parse.next_snps
        { m := 3, n := 1, nru := 4,
          geno := (Parse.encode_bed
            [[Parse.Geno.g0], [Parse.Geno.g1], [Parse.Geno.g2]] 1).drop 24,
          currentSNP := 0 } (1 + 2) = Except.ok (cols1 ++ cols2, stB) ∧
      stA.currentSNP = 0 + 1 ∧
      stB.currentSNP = 0 + 1 + 2 :=
  C10_next_snps_composes
    (Parse.encode_bed [[Parse.Geno.g0], [Parse.Geno.g1], [Parse.Geno.g2]] 1)
    3 1 1 2 _ rfl (by decide)

namespace LDmat

theorem twice_sum_range (n : ℕ) : 2 * (List.range n).sum = n * (n - 1) := by
  induction n with
  | zero => rfl
  | succ k ih =>
    rw [List.range_succ, List.sum_append, List.sum_cons, List.sum_nil,
      Nat.mul_add, ih, Nat.add_sub_cancel]
    cases k with
    | zero => rfl
    | succ j =>
      rw [Nat.add_sub_cancel]
      ring

theorem cumsum_from_getD (l : List ℕ) : ∀ (acc t : ℕ), t < l.length →
    (cumsum_from acc l).getD t 0 = acc + (l.take (t + 1)).sum := by
  induction l with
  | nil => intro acc t h; simp at h
  | cons x xs ih =>
    intro acc t h
    cases t with
    | zero => simp [cumsum_from]
    | succ t' =>
      rw [cumsum_from, List.getD_cons_succ,
        ih (acc + x) t' (by simpa using h), List.take_succ_cons, List.sum_cons]
      omega

/-- The identity `np.cumsum(range(m))[t] = t*(t+1)/2` for `t < m`. -/
theorem cumsum_range_getD (m t : ℕ) (h : t < m) :
    (cumsum (List.range m)).getD t 0 = t * (t + 1) / 2 := by
  unfold cumsum
  rw [cumsum_from_getD _ 0 t (by simpa using h), List.take_range]
  have hmin : min (t + 1) m = t + 1 := by omega
  rw [hmin]
  have h2 : 2 * (List.range (t + 1)).sum = t * (t + 1) := by
    rw [twice_sum_range, Nat.add_sub_cancel, Nat.mul_comm]
  omega

theorem range_eq_cons (n : ℕ) (h : 1 ≤ n) :
    List.range n = 0 :: List.range' 1 (n - 1) := by
  have h' : n = (n - 1) + 1 := by omega
  rw [List.range_eq_range', h', List.range'_succ, Nat.add_sub_cancel]

end LDmat

/-- C6: LD extraction index law.  For every strict-lower-triangle array of a
symmetric unit-diagonal block of size ≥ 2 and every strictly ascending index
subset `idxs` of size ≥ 2 with entries below the block size,
`_extract_by_idxs` (with its closed-form offsets
`cumsum(range(size-1))[idxs[i]-1] + idxs[:i]`) returns exactly the strict
lower triangle of the dense submatrix obtained by indexing the block
reconstructed by `_get_2d_matrix` at rows and columns `idxs`; and a
single-element subset yields the empty array. -/
theorem C6_extract_submatrix_law (dim : ℕ) (tril : List ℚ) (idxs : List ℕ)
    (hdim : 2 ≤ dim) (_hlen : tril.length = dim * (dim - 1) / 2)
    (hsorted : idxs.Chain' (· < ·)) (hmem : ∀ x ∈ idxs, x < dim)
    (hk : 2 ≤ idxs.length) :
    LDmat.extract_by_idxs tril dim idxs
      = LDmat.tril_flat idxs.length
          (fun a b => LDmat.get_2d_matrix tril (idxs.getD a 0) (idxs.getD b 0)) ∧
    (∀ x : ℕ, LDmat.extract_by_idxs tril dim [x] = []) := by
  refine ⟨?_, fun x => rfl⟩
  have hpair : ∀ i j (hi : i < idxs.length) (hj : j < idxs.length), j < i →
      idxs[j] < idxs[i] := by
    intro i j hi hj hji
    have hp := List.chain'_iff_pairwise.mp hsorted
    exact List.pairwise_iff_getElem.mp hp j i hj hi hji
  simp only [LDmat.extract_by_idxs, LDmat.tril_flat]
  rw [if_pos (by rw [List.length_map, List.length_range']; omega)]
  rw [LDmat.range_eq_cons idxs.length (by omega)]
  rw [List.map_cons, List.flatten_cons, List.range_zero, List.map_nil,
    List.nil_append, List.map_flatten, List.map_map]
  congr 1
  apply List.map_congr_left
  intro i hi
  rw [List.mem_range'_1] at hi
  obtain ⟨hi1, hi2⟩ := hi
  have hik : i < idxs.length := by omega
  apply List.ext_getElem
  · simp only [Function.comp, List.length_map, List.length_take,
      List.length_range]
    omega
  · intro b hb1 hb2
    simp only [Function.comp, List.getElem_map, List.getElem_take,
      List.getElem_range]
    have hbk : b < idxs.length := by
      simp only [Function.comp, List.length_map, List.length_take] at hb1
      omega
    have hbi : b < i := by
      simp only [Function.comp, List.length_map, List.length_take] at hb1
      omega
    have hvali : idxs.getD i 0 = idxs[i] := List.getD_eq_getElem _ _ hik
    have hvalb : idxs.getD b 0 = idxs[b] := List.getD_eq_getElem _ _ hbk
    have hlt : idxs[b] < idxs[i] := hpair i b hik hbk hbi
    have hi_pos : 1 ≤ idxs[i] := by
      have h0 : idxs[0] < idxs[i] := hpair i 0 hik (by omega) (by omega)
      omega
    have hi_dim : idxs[i] < dim := hmem _ (List.getElem_mem hik)
    simp only [hvali, hvalb]
    rw [LDmat.cumsum_range_getD (dim - 1) (idxs[i] - 1) (by omega)]
    simp only [LDmat.get_2d_matrix]
    rw [if_neg (by omega), if_pos hlt]
    have harith : (idxs[i] - 1) * (idxs[i] - 1 + 1) / 2
        = idxs[i] * (idxs[i] - 1) / 2 := by
      rw [show idxs[i] - 1 + 1 = idxs[i] from by omega, Nat.mul_comm]
    rw [harith]

/-- Witness for `C6_extract_submatrix_law`: block size 3, triangle
`[2, 3, 5]`, index subset `[0, 2]`. -/
theorem C6_extract_submatrix_law_witness :
    LDmat.extract_by_idxs [2, 3, 5] 3 [0, 2]
      = LDmat.tril_flat ([0, 2] : List ℕ).length
          (fun a b => LDmat.get_2d_matrix [2, 3, 5]
            (([0, 2] : List ℕ).getD a 0) (([0, 2] : List ℕ).getD b 0)) ∧
    (∀ x : ℕ, LDmat.extract_by_idxs [2, 3, 5] 3 [x] = []) :=
  C6_extract_submatrix_law 3 [2, 3, 5] [0, 2] (by omega) (by norm_num)
    (by norm_num [List.chain'_cons]) (by decide) (by decide)

/-- C7: truncation gating.  (i) a successful `truncate` leaves the flag set;
(ii)/(iii) `merge` and `extract` never change the flag when they return a
matrix (so no operation ever clears it; `estimate_ldscore` does not modify
the matrix at all); (iv)/(v)/(vi) on a truncated matrix, `merge`, `extract`
and `truncate` each raise the truncation error; (vii) `estimate_ldscore`
raises an error exactly when the matrix is not truncated. -/
theorem C7_truncated_gating :
    (∀ (eig : Bool → List (List ℚ) → List (List ℚ)) (self : LDmat.LDM)
        (prop : ℚ) (inv : Bool) (out : LDmat.LDM),
      LDmat.truncate eig self prop inv = Except.ok out →
        out.is_truncated = true) ∧
    (∀ (self : LDmat.LDM) (files : List (List LDmat.InfoRow × List LDmat.LDBlock))
        (out : LDmat.LDM),
      LDmat.merge self files = Except.ok out →
        out.is_truncated = self.is_truncated) ∧
    (∀ (self : LDmat.LDM) (snps : List String) (out : LDmat.LDM),
      LDmat.extract self snps = Except.ok out →
        out.is_truncated = self.is_truncated) ∧
    (∀ (self : LDmat.LDM) (files : List (List LDmat.InfoRow × List LDmat.LDBlock)),
      self.is_truncated = true →
        LDmat.merge self files = Except.error "The LD matrix has been truncated") ∧
    (∀ (self : LDmat.LDM) (snps : List String),
      self.is_truncated = true →
        LDmat.extract self snps = Except.error "The LD matrix has been truncated") ∧
    (∀ (eig : Bool → List (List ℚ) → List (List ℚ)) (self : LDmat.LDM)
        (prop : ℚ) (inv : Bool),
      self.is_truncated = true →
        LDmat.truncate eig self prop inv
          = Except.error "The LD matrix has been truncated") ∧
    (∀ self : LDmat.LDM,
      (∃ e, LDmat.estimate_ldscore self = Except.error e) ↔
        self.is_truncated = false) := by
  refine ⟨?_, ?_, ?_, ?_, ?_, ?_, ?_⟩
  · intro eig self prop inv out h
    simp only [LDmat.truncate] at h
    split at h
    · simp at h
    · simp only [Except.ok.injEq] at h
      subst h
      rfl
  · intro self files out h
    simp only [LDmat.merge] at h
    split at h
    · simp at h
    · split at h
      · simp at h
      · cases files with
        | nil => simp_all
        | cons f rest =>
          obtain ⟨info_i, data_i⟩ := f
          simp only [LDmat.merge_loop] at h
          split at h <;> simp at h
  · intro self snps out h
    simp only [LDmat.extract] at h
    split at h
    · simp at h
    · simp only [Except.ok.injEq] at h
      subst h
      rfl
  · intro self files h
    simp [LDmat.merge, h]
  · intro self snps h
    simp [LDmat.extract, h]
  · intro eig self prop inv h
    simp [LDmat.truncate, h]
  · intro self
    cases hb : self.is_truncated <;> simp [LDmat.estimate_ldscore, hb]

/-- Witness for `C7_truncated_gating`: a concrete truncated matrix rejects
`merge`, and a concrete raw matrix makes `estimate_ldscore` fail. -/
theorem C7_truncated_gating_witness :
    LDmat.merge
      { ld_info := [⟨1, "rs1", 100, 0, 0⟩], data := [.dense [[1]]],
        is_truncated := true, block_sizes := [1], block_ranges := [(0, 1)] }
      [] = Except.error "The LD matrix has been truncated" ∧
    (∃ e, LDmat.estimate_ldscore
      { ld_info := [⟨1, "rs1", 100, 0, 0⟩], data := [.tril []],
        is_truncated := false, block_sizes := [1], block_ranges := [(0, 1)] }
      = Except.error e) :=
  ⟨C7_truncated_gating.2.2.2.1 _ [] rfl,
   (C7_truncated_gating.2.2.2.2.2.2 _).mpr rfl⟩

end HEIG
